import Mathlib

/-!
# Verification of the diff-to-feedback review pipeline (`.github/tools/reviewer.js`)

A shallow embedding, in Lean 4, of the pure core of the repository's reviewer
script, together with proofs of the behavioural claims made by its
specification.  Each section names the JavaScript function it embeds; numbers
stay `Nat`/`Int`/`Rat` (JavaScript numbers in the embedded fragments are exact
small integers or exact decimal fractions, so no floating-point behaviour is
lost), strings stay `String`, and absent (`undefined`/`null`) values become
`Option`.
-/

namespace Reviewer

/-! ## String helpers

JavaScript's `String.prototype.split("\n")`, `String.prototype.startsWith`,
`String.prototype.slice(0, n)` and `Array.prototype.join("\n")` as structural
functions on `List Char`, so that every definition below evaluates by kernel
reduction. -/

/-- `strStarts s pre` embeds JavaScript `s.startsWith(pre)`. -/
def strStarts (s pre : String) : Bool :=
  pre.data.isPrefixOf s.data

/-- Accumulator loop of `split("\n")`: `acc` holds the chars of the current
piece, reversed. -/
def splitNlAux : List Char → List Char → List String
  | [], acc => [String.mk acc.reverse]
  | c :: cs, acc =>
    if c = '\n' then String.mk acc.reverse :: splitNlAux cs []
    else splitNlAux cs (c :: acc)

/-- `splitNl s` embeds JavaScript `s.split("\n")`; note `"".split("\n")` is
`[""]`. -/
def splitNl (s : String) : List String :=
  splitNlAux s.data []

/-- `joinNl` embeds JavaScript `array.join("\n")`. -/
def joinNl : List String → String
  | [] => ""
  | [s] => s
  | s :: rest => s ++ "\n" ++ joinNl rest

/-! ## Diff Position Indexer (`buildAddedLinePositions`, `positionFromNthAdded`)

Source, `reviewer.js` lines 181–198: scan the patch's lines, incrementing a
position counter once per line (so hunk headers, context and deletions all
count), and record the counter whenever the line starts with `'+'` but not
`'+++'`. -/

/-- A line of the patch that counts as an addition: starts with `+` but is not
the `+++` file-header marker (`line.startsWith("+") && !line.startsWith("+++")`). -/
def isAdditionLine (l : String) : Bool :=
  strStarts l "+" && !(strStarts l "+++")

/-- The `for (const line of patch.split("\n"))` loop of
`buildAddedLinePositions`: `pos` is the number of lines already scanned. -/
def buildAddedAux : List String → Nat → List Nat
  | [], _ => []
  | l :: ls, pos =>
    if isAdditionLine l then (pos + 1) :: buildAddedAux ls (pos + 1)
    else buildAddedAux ls (pos + 1)

/-- `buildAddedLinePositions(patch)`; the `if (!patch) return positions;` guard
makes the empty (or absent, merged into `""` here) patch return `[]`. -/
def buildAddedLinePositions (patch : String) : List Nat :=
  if patch = "" then [] else buildAddedAux (splitNl patch) 0

/-- `positionFromNthAdded(patch, addedIndexOneBased)`: `none` embeds
JavaScript `undefined`, both for the guard
`!patch || !addedIndexOneBased || addedIndexOneBased < 1` and for an
out-of-range array read `arr[addedIndexOneBased - 1]`. -/
def positionFromNthAdded (patch : String) (addedIndexOneBased : Option Int) :
    Option Nat :=
  match addedIndexOneBased with
  | none => none
  | some k =>
    if patch = "" ∨ k = 0 ∨ k < 1 then none
    else (buildAddedLinePositions patch).get? (k - 1).toNat

/-- Number of addition lines of a patch (the lines beginning with `+` but not
`+++`). -/
def additionCount (patch : String) : Nat :=
  ((splitNl patch).filter isAdditionLine).length

/-- Spec-side definition, from the spec's words: enumerate every line of the
patch with 1-based absolute positions, keep the addition lines, and return the
position paired with the `k`-th of them (1-based `k`). -/
def nthAdditionPositionSpec (patch : String) (k : Nat) : Option Nat :=
  ((((splitNl patch).enumFrom 1).filter fun q => isAdditionLine q.2).map
    Prod.fst).get? (k - 1)

lemma buildAddedAux_eq_enum (ls : List String) :
    ∀ pos : Nat,
      buildAddedAux ls pos =
        ((ls.enumFrom (pos + 1)).filter fun q => isAdditionLine q.2).map
          Prod.fst := by
  induction ls with
  | nil => intro pos; simp [buildAddedAux]
  | cons l ls ih =>
    intro pos
    by_cases h : isAdditionLine l
    · simp [buildAddedAux, List.enumFrom_cons, h, List.filter_cons, ih (pos + 1)]
    · simp [buildAddedAux, List.enumFrom_cons, h, List.filter_cons, ih (pos + 1)]

lemma buildAddedAux_length (ls : List String) :
    ∀ pos : Nat, (buildAddedAux ls pos).length = (ls.filter isAdditionLine).length := by
  induction ls with
  | nil => intro pos; simp [buildAddedAux]
  | cons l ls ih =>
    intro pos
    by_cases h : isAdditionLine l
    · simp [buildAddedAux, h, List.filter_cons, ih (pos + 1)]
    · simp [buildAddedAux, h, List.filter_cons, ih (pos + 1)]

lemma buildAddedAux_mem_gt (ls : List String) :
    ∀ pos x : Nat, x ∈ buildAddedAux ls pos → pos < x := by
  induction ls with
  | nil => intro pos x hx; simp [buildAddedAux] at hx
  | cons l ls ih =>
    intro pos x hx
    by_cases h : isAdditionLine l
    · simp only [buildAddedAux, h, if_true, List.mem_cons] at hx
      rcases hx with rfl | hx
      · omega
      · have := ih (pos + 1) x hx; omega
    · simp only [buildAddedAux, h, if_false, Bool.false_eq_true] at hx
      have := ih (pos + 1) x hx; omega

lemma buildAddedAux_pairwise (ls : List String) :
    ∀ pos : Nat, List.Pairwise (· < ·) (buildAddedAux ls pos) := by
  induction ls with
  | nil => intro pos; simp [buildAddedAux]
  | cons l ls ih =>
    intro pos
    by_cases h : isAdditionLine l
    · simp only [buildAddedAux, h, if_true]
      exact List.Pairwise.cons
        (fun y hy => buildAddedAux_mem_gt ls (pos + 1) y hy)
        (ih (pos + 1))
    · simpa [buildAddedAux, h] using ih (pos + 1)

lemma splitNl_empty : splitNl "" = [""] := rfl

lemma isAdditionLine_empty : isAdditionLine "" = false := rfl

lemma buildAddedLinePositions_eq_enum (patch : String) :
    buildAddedLinePositions patch =
      (((splitNl patch).enumFrom 1).filter fun q => isAdditionLine q.2).map
        Prod.fst := by
  by_cases h : patch = ""
  · subst h
    simp [buildAddedLinePositions, splitNl_empty, List.enumFrom_cons,
      List.filter_cons, isAdditionLine_empty]
  · simpa [buildAddedLinePositions, h] using buildAddedAux_eq_enum (splitNl patch) 0

lemma buildAddedLinePositions_length (patch : String) :
    (buildAddedLinePositions patch).length = additionCount patch := by
  by_cases h : patch = ""
  · subst h
    simp [buildAddedLinePositions, additionCount, splitNl_empty,
      List.filter_cons, isAdditionLine_empty]
  · simpa [buildAddedLinePositions, additionCount, h] using
      buildAddedAux_length (splitNl patch) 0

/-- **C5.** For every patch `P`, the sequence `buildAddedLinePositions(P)` is
strictly increasing, and its length equals the number of addition lines of `P`
(lines beginning with `+` but not `+++`). -/
theorem buildAddedLinePositions_strictMono_length (patch : String) :
    List.Pairwise (· < ·) (buildAddedLinePositions patch) ∧
      (buildAddedLinePositions patch).length = additionCount patch := by
  refine ⟨?_, buildAddedLinePositions_length patch⟩
  by_cases h : patch = ""
  · simp [buildAddedLinePositions, h]
  · simpa [buildAddedLinePositions, h] using
      buildAddedAux_pairwise (splitNl patch) 0

/-- **C1.** `positionFromNthAdded` (the script's `resolve`) agrees with the
spec-side description everywhere: for `1 ≤ k ≤ additionCount patch` it returns
precisely the 1-based absolute position of the `k`-th addition line, counting
every line of the patch (hunk headers, context and deletions included), and
that result is present; for an absent ordinal, an ordinal `≤ 0`, or an ordinal
larger than the addition count, it returns `none` rather than failing. -/
theorem positionFromNthAdded_spec (patch : String) :
    (∀ k : Nat, 1 ≤ k → k ≤ additionCount patch →
        positionFromNthAdded patch (some (k : Int)) = nthAdditionPositionSpec patch k ∧
          (nthAdditionPositionSpec patch k).isSome = true) ∧
      positionFromNthAdded patch none = none ∧
      (∀ k : Int, k ≤ 0 → positionFromNthAdded patch (some k) = none) ∧
      (∀ k : Nat, additionCount patch < k →
        positionFromNthAdded patch (some (k : Int)) = none) := by
  have hlen :
      ((((splitNl patch).enumFrom 1).filter fun q => isAdditionLine q.2).map
        Prod.fst).length = additionCount patch := by
    rw [← buildAddedLinePositions_eq_enum]; exact buildAddedLinePositions_length patch
  refine ⟨?_, rfl, ?_, ?_⟩
  · intro k hk1 hk2
    have hne : ¬(patch = "" ∨ (k : Int) = 0 ∨ (k : Int) < 1) := by
      rintro (hp | h0 | hlt)
      · subst hp
        have : additionCount "" = 0 := rfl
        omega
      · omega
      · omega
    have htoNat : ((k : Int) - 1).toNat = k - 1 := by omega
    have hlt : k - 1 <
        ((((splitNl patch).enumFrom 1).filter fun q => isAdditionLine q.2).map
          Prod.fst).length := by omega
    constructor
    · simp only [positionFromNthAdded, if_neg hne, htoNat,
        nthAdditionPositionSpec, buildAddedLinePositions_eq_enum]
    · rw [nthAdditionPositionSpec, List.get?_eq_getElem?,
        List.getElem?_eq_getElem hlt]
      rfl
  · intro k hk
    have h : patch = "" ∨ k = 0 ∨ k < 1 := by omega
    simp [positionFromNthAdded, h]
  · intro k hk
    by_cases hne : patch = "" ∨ (k : Int) = 0 ∨ (k : Int) < 1
    · simp only [positionFromNthAdded, if_pos hne]
    · have h1k : 1 ≤ k := by
        rcases not_or.mp hne with ⟨-, h⟩
        rcases not_or.mp h with ⟨h0, h1⟩
        omega
      have htoNat : ((k : Int) - 1).toNat = k - 1 := by omega
      simp only [positionFromNthAdded, if_neg hne, htoNat]
      rw [List.get?_eq_getElem?, List.getElem?_eq_none]
      rw [buildAddedLinePositions_length patch]
      omega

/-- Closed witness for C1 on the spec's own end-to-end example patch
(`@@ -1,2 +1,3 @@ / context / +line1 / +line2`): ordinal 2 resolves to
position 4, and ordinal 3 (only 2 additions exist) resolves to `none`. -/
theorem positionFromNthAdded_spec_witness :
    (1 ≤ 2 ∧ 2 ≤ additionCount "@@ -1,2 +1,3 @@\n context\n+line1\n+line2") ∧
      positionFromNthAdded "@@ -1,2 +1,3 @@\n context\n+line1\n+line2"
        (some ((2 : Nat) : Int)) = some 4 ∧
      positionFromNthAdded "@@ -1,2 +1,3 @@\n context\n+line1\n+line2"
        (some ((3 : Nat) : Int)) = none := by
  refine ⟨⟨by norm_num, by decide⟩, ?_, ?_⟩
  · have h := ((positionFromNthAdded_spec
      "@@ -1,2 +1,3 @@\n context\n+line1\n+line2").1 2 (by norm_num) (by decide)).1
    rw [h]; decide
  · exact (positionFromNthAdded_spec
      "@@ -1,2 +1,3 @@\n context\n+line1\n+line2").2.2.2 3 (by decide)

/-! ## Glob Filter (`globToRegex`, `pathMatchesAny`)

Source, `reviewer.js` lines 137–149.  `globToRegex` performs four
character-level rewrites and compiles the result:

* escape the regex metacharacters of the class `[.+^${}()|[\]\\]` — note
  that `?` is not in this class, so a `?` in the glob survives into the
  regex as a quantifier;
* replace `**` by the placeholder `§§§` (global, left to right,
  non-overlapping) — a `§` already in the glob can collide with this
  placeholder;
* replace each remaining `*` by `[^/]*`;
* replace `§§§` by `.*` (again left to right, non-overlapping), and wrap the
  whole text in `^…$` for `new RegExp`.

We embed each rewrite literally on the character list, then parse the
produced regex text into its atoms and match anchored.  Semantics kept
faithfully: `[^/]*` matches any run of characters other than `/` (a negated
class matches line terminators, so `*` crosses newlines); `.*` has no `/s`
flag, so `**` matches any run free of the line terminators LF, CR, U+2028,
U+2029 — it crosses `/` but not a newline; a `?` makes the atom on its left
optional (a second `?` is the lazy modifier), and with no atom on its left,
or stacked a third time, `new RegExp` throws a `SyntaxError`, modelled as
`none` and propagated by `pathMatchesAny` exactly as the exception
propagates out of `globs.some`.  Characters are Lean code points standing
for the UTF-16 code units JavaScript matches one at a time; the two notions
agree on all paths without surrogate pairs. -/

/-- The characters escaped by the first replace, the class
`[.+^${}()|[\]\\]` of `reviewer.js:140` (braces written by code point). -/
def escapeClass : List Char :=
  ['.', '+', '^', '$', Char.ofNat 123, Char.ofNat 125, '(', ')', '|', '[',
    ']', '\\']

/-- The escape replace: prefix every escape-class character with a
backslash. -/
def escapeRegexChars : List Char → List Char
  | [] => []
  | c :: rest =>
    if c ∈ escapeClass then '\\' :: c :: escapeRegexChars rest
    else c :: escapeRegexChars rest

/-- The `**`-to-placeholder replace, global and left to right, exactly like
the scan of a global regex replace. -/
def replaceStarStar : List Char → List Char
  | [] => []
  | '*' :: '*' :: rest => '§' :: '§' :: '§' :: replaceStarStar rest
  | c :: rest => c :: replaceStarStar rest

/-- The `*`-to-`[^/]*` replace. -/
def replaceStar : List Char → List Char
  | [] => []
  | '*' :: rest => '[' :: '^' :: '/' :: ']' :: '*' :: replaceStar rest
  | c :: rest => c :: replaceStar rest

/-- The placeholder-to-`.*` replace, left to right and non-overlapping: of a
run of `n` section signs (placeholder triples and any `§` from the glob
itself run together) the leading whole triples become `.*` and `n mod 3`
trail as literals. -/
def replacePlaceholder : List Char → List Char
  | [] => []
  | '§' :: '§' :: '§' :: rest => '.' :: '*' :: replacePlaceholder rest
  | c :: rest => c :: replacePlaceholder rest

/-- Lexical units of the produced regex text: a literal atom, the `[^/]*`
group, the `.*` group, or a bare `?`. -/
inductive PreTok where
  | lit (c : Char) : PreTok
  | seg : PreTok
  | any : PreTok
  | quest : PreTok
deriving DecidableEq, Repr

/-- Lex the translated pattern.  In the image of the translation a backslash
is always followed by its escaped character, every bare `[` begins a `[^/]*`
group and every bare `.` begins a `.*` group (original `[`, `.`, `\` are
escaped and every original `*` was replaced), so the catch-all literal case
is only ever reached by ordinary characters. -/
def lexRegex : List Char → Option (List PreTok)
  | [] => some []
  | '\\' :: c :: rest => (lexRegex rest).map (PreTok.lit c :: ·)
  | ['\\'] => none
  | '[' :: '^' :: '/' :: ']' :: '*' :: rest =>
    (lexRegex rest).map (PreTok.seg :: ·)
  | '.' :: '*' :: rest => (lexRegex rest).map (PreTok.any :: ·)
  | '?' :: rest => (lexRegex rest).map (PreTok.quest :: ·)
  | c :: rest => (lexRegex rest).map (PreTok.lit c :: ·)

/-- Atoms of the compiled pattern with quantifiers resolved: a mandatory
literal, an optional literal (`c?`, or the lazy `c??` — laziness never
changes whether a match exists), the greedy-or-lazy `[^/]*` and the
greedy-or-lazy `.*`. -/
inductive RTok where
  | lit (c : Char) : RTok
  | litOpt (c : Char) : RTok
  | seg : RTok
  | any : RTok
deriving DecidableEq, Repr

/-- Attach `?` runs to the atom on their left, as the regex parser does: one
`?` after a literal makes it optional and a second makes that lazy, while a
third has nothing left to repeat; after `[^/]*` or `.*` one `?` is the lazy
modifier and a second has nothing to repeat; a `?` with no atom on its left
quantifies the `^` anchor.  The nothing-to-repeat cases are the
`SyntaxError` of `new RegExp`, modelled as `none`. -/
def attachQs : List PreTok → Option (List RTok)
  | [] => some []
  | .quest :: _ => none
  | .lit _ :: .quest :: .quest :: .quest :: _ => none
  | .lit c :: .quest :: .quest :: rest => (attachQs rest).map (RTok.litOpt c :: ·)
  | .lit c :: .quest :: rest => (attachQs rest).map (RTok.litOpt c :: ·)
  | .lit c :: rest => (attachQs rest).map (RTok.lit c :: ·)
  | .seg :: .quest :: .quest :: _ => none
  | .seg :: .quest :: rest => (attachQs rest).map (RTok.seg :: ·)
  | .seg :: rest => (attachQs rest).map (RTok.seg :: ·)
  | .any :: .quest :: .quest :: _ => none
  | .any :: .quest :: rest => (attachQs rest).map (RTok.any :: ·)
  | .any :: rest => (attachQs rest).map (RTok.any :: ·)

/-- `globToRegex(glob)`: the full translation pipeline; `none` is the
`SyntaxError` thrown by `new RegExp` on a malformed translation. -/
def globToRegex (glob : String) : Option (List RTok) :=
  match lexRegex (replacePlaceholder (replaceStar (replaceStarStar
      (escapeRegexChars glob.data)))) with
  | none => none
  | some pres => attachQs pres

/-- The line terminators that `.` does not match without the `/s` flag:
LF, CR, U+2028 and U+2029. -/
def lineTerm (c : Char) : Bool :=
  c = '\n' || c = '\r' || c = Char.ofNat 0x2028 || c = Char.ofNat 0x2029

/-- Fuel-bounded anchored matcher for the compiled atoms.  Every step
removes a token or a character, so `tks.length + cs.length + 1` fuel always
suffices (see `matchRToksF_complete`); the fuel only makes the recursion
structural. -/
def matchRToksF : Nat → List RTok → List Char → Bool
  | 0, _, _ => false
  | fuel + 1, tks, cs =>
    match tks, cs with
    | [], [] => true
    | [], _ :: _ => false
    | .lit _ :: _, [] => false
    | .lit c :: tks', d :: cs' => c == d && matchRToksF fuel tks' cs'
    | .litOpt _ :: tks', [] => matchRToksF fuel tks' []
    | .litOpt c :: tks', d :: cs' =>
      matchRToksF fuel tks' (d :: cs') || (c == d && matchRToksF fuel tks' cs')
    | .seg :: tks', [] => matchRToksF fuel tks' []
    | .seg :: tks', d :: cs' =>
      matchRToksF fuel tks' (d :: cs') ||
        (!(d == '/') && matchRToksF fuel (.seg :: tks') cs')
    | .any :: tks', [] => matchRToksF fuel tks' []
    | .any :: tks', d :: cs' =>
      matchRToksF fuel tks' (d :: cs') ||
        (!(lineTerm d) && matchRToksF fuel (.any :: tks') cs')

/-- Anchored full-path match of a compiled pattern. -/
def matchRToks (tks : List RTok) (cs : List Char) : Bool :=
  matchRToksF (tks.length + cs.length + 1) tks cs

/-- `globToRegex(glob).test(path)`; `none` when the compile throws. -/
def regexTest (glob path : String) : Option Bool :=
  (globToRegex glob).map fun tks => matchRToks tks path.data

/-- The `globs.some(g => globToRegex(g).test(path))` loop: sequential, the
first `true` wins, a thrown `SyntaxError` propagates. -/
def someMatches (path : String) : List String → Option Bool
  | [] => some false
  | g :: gs =>
    match regexTest g path with
    | none => none
    | some true => some true
    | some false => someMatches path gs

/-- `pathMatchesAny(path, globs)`: an empty (or absent) pattern list matches
everything; otherwise the sequential disjunction above. -/
def pathMatchesAny (path : String) (globs : List String) : Option Bool :=
  if globs = [] then some true else someMatches path globs

/-- Boolean view of `pathMatchesAny` taken by the changed-file loop: a file
is in scope when the test completed and returned `true`.  A pattern whose
compilation throws aborts the source's run before any table is built, so
the `false` this view yields in that case is never observed by the code the
later sections embed. -/
def pathMatchesAnyB (path : String) (globs : List String) : Bool :=
  pathMatchesAny path globs == some true

/-- Declarative, spec-side matching relation over the compiled atoms: the
whole path is consumed (anchored full-path match, never a prefix or
substring test); a literal consumes exactly its character; an optional
literal consumes it or nothing; `[^/]*` consumes any run free of `/`; `.*`
consumes any run free of line terminators. -/
inductive RMatches : List RTok → List Char → Prop where
  | nil : RMatches [] []
  | lit {c : Char} {tks : List RTok} {cs : List Char} :
      RMatches tks cs → RMatches (.lit c :: tks) (c :: cs)
  | litOptSkip {c : Char} {tks : List RTok} {cs : List Char} :
      RMatches tks cs → RMatches (.litOpt c :: tks) cs
  | litOptTake {c : Char} {tks : List RTok} {cs : List Char} :
      RMatches tks cs → RMatches (.litOpt c :: tks) (c :: cs)
  | seg {tks : List RTok} {s cs : List Char} :
      (∀ c ∈ s, c ≠ '/') → RMatches tks cs → RMatches (.seg :: tks) (s ++ cs)
  | any {tks : List RTok} {s cs : List Char} :
      (∀ c ∈ s, lineTerm c = false) → RMatches tks cs →
      RMatches (.any :: tks) (s ++ cs)

lemma rMatches_seg_of (tks : List RTok) (s cs : List Char)
    (hs : ∀ c ∈ s, c ≠ '/') (h : RMatches tks cs) :
    RMatches (.seg :: tks) (s ++ cs) :=
  RMatches.seg hs h

lemma rMatches_any_of (tks : List RTok) (s cs : List Char)
    (hs : ∀ c ∈ s, lineTerm c = false) (h : RMatches tks cs) :
    RMatches (.any :: tks) (s ++ cs) :=
  RMatches.any hs h

lemma RMatches.nil_inv {cs : List Char} (h : RMatches [] cs) : cs = [] := by
  cases h; rfl

lemma RMatches.lit_inv {c : Char} {tks : List RTok} {cs : List Char}
    (h : RMatches (.lit c :: tks) cs) :
    ∃ cs', cs = c :: cs' ∧ RMatches tks cs' := by
  cases h with
  | lit h' => exact ⟨_, rfl, h'⟩

lemma RMatches.seg_inv {tks : List RTok} {cs : List Char}
    (h : RMatches (.seg :: tks) cs) :
    ∃ s cs', cs = s ++ cs' ∧ (∀ c ∈ s, c ≠ '/') ∧ RMatches tks cs' := by
  cases h with
  | seg hs h' => exact ⟨_, _, rfl, hs, h'⟩

lemma RMatches.any_inv {tks : List RTok} {cs : List Char}
    (h : RMatches (.any :: tks) cs) :
    ∃ s cs', cs = s ++ cs' ∧ (∀ c ∈ s, lineTerm c = false) ∧ RMatches tks cs' := by
  cases h with
  | any hs h' => exact ⟨_, _, rfl, hs, h'⟩

lemma matchRToksF_sound :
    ∀ (fuel : Nat) (tks : List RTok) (cs : List Char),
      matchRToksF fuel tks cs = true → RMatches tks cs := by
  intro fuel
  induction fuel with
  | zero => intro tks cs h; simp [matchRToksF] at h
  | succ fuel ih =>
    intro tks cs h
    match tks, cs with
    | [], [] => exact .nil
    | [], _ :: _ => simp [matchRToksF] at h
    | .lit c :: tks', [] => simp [matchRToksF] at h
    | .lit c :: tks', d :: cs' =>
      simp only [matchRToksF, Bool.and_eq_true, beq_iff_eq] at h
      exact h.1 ▸ RMatches.lit (ih tks' cs' h.2)
    | .litOpt c :: tks', [] =>
      simp only [matchRToksF] at h
      exact RMatches.litOptSkip (ih tks' [] h)
    | .litOpt c :: tks', d :: cs' =>
      simp only [matchRToksF, Bool.or_eq_true, Bool.and_eq_true, beq_iff_eq] at h
      rcases h with h | ⟨rfl, h⟩
      · exact RMatches.litOptSkip (ih tks' (d :: cs') h)
      · exact RMatches.litOptTake (ih tks' cs' h)
    | .seg :: tks', [] =>
      simp only [matchRToksF] at h
      simpa using rMatches_seg_of _ [] _ (by simp) (ih tks' [] h)
    | .seg :: tks', d :: cs' =>
      simp only [matchRToksF, Bool.or_eq_true, Bool.and_eq_true,
        Bool.not_eq_true', beq_eq_false_iff_ne] at h
      rcases h with h | ⟨hd, h⟩
      · simpa using rMatches_seg_of _ [] _ (by simp) (ih tks' (d :: cs') h)
      · obtain ⟨s, cs₀, rfl, hs, h₀⟩ := (ih _ cs' h).seg_inv
        have hcons : d :: (s ++ cs₀) = (d :: s) ++ cs₀ := rfl
        rw [hcons]
        exact RMatches.seg
          (fun c hc => by
            rcases List.mem_cons.mp hc with rfl | hc
            · exact hd
            · exact hs c hc) h₀
    | .any :: tks', [] =>
      simp only [matchRToksF] at h
      simpa using rMatches_any_of _ [] _ (by simp) (ih tks' [] h)
    | .any :: tks', d :: cs' =>
      simp only [matchRToksF, Bool.or_eq_true, Bool.and_eq_true,
        Bool.not_eq_true'] at h
      rcases h with h | ⟨hd, h⟩
      · simpa using rMatches_any_of _ [] _ (by simp) (ih tks' (d :: cs') h)
      · obtain ⟨s, cs₀, rfl, hs, h₀⟩ := (ih _ cs' h).any_inv
        have hcons : d :: (s ++ cs₀) = (d :: s) ++ cs₀ := rfl
        rw [hcons]
        exact RMatches.any
          (fun c hc => by
            rcases List.mem_cons.mp hc with rfl | hc
            · exact hd
            · exact hs c hc) h₀

lemma matchRToksF_seg_pump {tks : List RTok} {cs : List Char}
    (hrec : ∀ fuel : Nat, tks.length + cs.length < fuel →
      matchRToksF fuel tks cs = true) :
    ∀ (s : List Char), (∀ c ∈ s, c ≠ '/') →
      ∀ fuel : Nat, (RTok.seg :: tks).length + (s ++ cs).length < fuel →
        matchRToksF fuel (.seg :: tks) (s ++ cs) = true := by
  intro s
  induction s with
  | nil =>
    intro _ fuel hfuel
    simp only [List.nil_append, List.length_cons, List.length] at hfuel ⊢
    match fuel, hfuel with
    | fuel + 1, hfuel =>
      match cs with
      | [] =>
        simp only [matchRToksF]
        exact hrec fuel (by simp at hfuel ⊢; omega)
      | d :: cs' =>
        simp only [matchRToksF, Bool.or_eq_true]
        exact Or.inl (hrec fuel (by simp at hfuel ⊢; omega))
  | cons c s' ih =>
    intro hs fuel hfuel
    match fuel, hfuel with
    | fuel + 1, hfuel =>
      have hc : c ≠ '/' := hs c (List.mem_cons_self c s')
      simp only [List.cons_append, matchRToksF, Bool.or_eq_true, Bool.and_eq_true,
        Bool.not_eq_true', beq_eq_false_iff_ne]
      refine Or.inr ⟨hc, ?_⟩
      refine ih (fun d hd => hs d (List.mem_cons_of_mem c hd)) fuel ?_
      simp only [List.length_cons, List.length_append] at hfuel ⊢
      omega

lemma matchRToksF_any_pump {tks : List RTok} {cs : List Char}
    (hrec : ∀ fuel : Nat, tks.length + cs.length < fuel →
      matchRToksF fuel tks cs = true) :
    ∀ (s : List Char), (∀ c ∈ s, lineTerm c = false) →
      ∀ fuel : Nat, (RTok.any :: tks).length + (s ++ cs).length < fuel →
        matchRToksF fuel (.any :: tks) (s ++ cs) = true := by
  intro s
  induction s with
  | nil =>
    intro _ fuel hfuel
    simp only [List.nil_append, List.length_cons, List.length] at hfuel ⊢
    match fuel, hfuel with
    | fuel + 1, hfuel =>
      match cs with
      | [] =>
        simp only [matchRToksF]
        exact hrec fuel (by simp at hfuel ⊢; omega)
      | d :: cs' =>
        simp only [matchRToksF, Bool.or_eq_true]
        exact Or.inl (hrec fuel (by simp at hfuel ⊢; omega))
  | cons c s' ih =>
    intro hs fuel hfuel
    match fuel, hfuel with
    | fuel + 1, hfuel =>
      have hc : lineTerm c = false := hs c (List.mem_cons_self c s')
      simp only [List.cons_append, matchRToksF, Bool.or_eq_true, Bool.and_eq_true,
        Bool.not_eq_true']
      refine Or.inr ⟨hc, ?_⟩
      refine ih (fun d hd => hs d (List.mem_cons_of_mem c hd)) fuel ?_
      simp only [List.length_cons, List.length_append] at hfuel ⊢
      omega

lemma matchRToksF_complete {tks : List RTok} {cs : List Char}
    (h : RMatches tks cs) :
    ∀ fuel : Nat, tks.length + cs.length < fuel →
      matchRToksF fuel tks cs = true := by
  induction h with
  | nil =>
    intro fuel hfuel
    match fuel, hfuel with
    | fuel + 1, _ => rfl
  | lit h ih =>
    intro fuel hfuel
    match fuel, hfuel with
    | fuel + 1, hfuel =>
      simp only [matchRToksF, Bool.and_eq_true, beq_self_eq_true, true_and]
      refine ih fuel ?_
      simp only [List.length_cons] at hfuel
      omega
  | @litOptSkip c tks cs h ih =>
    intro fuel hfuel
    match fuel, hfuel with
    | fuel + 1, hfuel =>
      match cs with
      | [] =>
        simp only [matchRToksF]
        exact ih fuel (by simp at hfuel ⊢; omega)
      | d :: cs' =>
        simp only [matchRToksF, Bool.or_eq_true]
        exact Or.inl (ih fuel (by simp at hfuel ⊢; omega))
  | @litOptTake c tks cs h ih =>
    intro fuel hfuel
    match fuel, hfuel with
    | fuel + 1, hfuel =>
      simp only [matchRToksF, Bool.or_eq_true, Bool.and_eq_true,
        beq_self_eq_true, true_and]
      refine Or.inr (ih fuel ?_)
      simp only [List.length_cons] at hfuel
      omega
  | seg hs h ih => exact matchRToksF_seg_pump ih _ hs
  | any hs h ih => exact matchRToksF_any_pump ih _ hs

lemma matchRToks_iff (tks : List RTok) (cs : List Char) :
    matchRToks tks cs = true ↔ RMatches tks cs := by
  constructor
  · exact matchRToksF_sound _ tks cs
  · intro h
    exact matchRToksF_complete h _ (Nat.lt_succ_self _)

lemma rMatches_lits_iff (gs ds : List Char) :
    RMatches (gs.map .lit) ds ↔ gs = ds := by
  constructor
  · intro h
    induction gs generalizing ds with
    | nil => simpa using (h.nil_inv).symm
    | cons g gs ih =>
      obtain ⟨ds', rfl, h'⟩ := RMatches.lit_inv (by simpa using h)
      simp [ih ds' h']
  · rintro rfl
    induction gs with
    | nil => exact .nil
    | cons g gs ih => exact .lit ih

lemma rMatches_seg_iff (cs : List Char) :
    RMatches [RTok.seg] cs ↔ ∀ c ∈ cs, c ≠ '/' := by
  constructor
  · intro h
    obtain ⟨s, cs', heq, hs, h'⟩ := h.seg_inv
    obtain rfl := h'.nil_inv
    rw [heq]
    simpa using hs
  · intro h
    simpa using rMatches_seg_of [] cs [] h .nil

lemma rMatches_any_iff (cs : List Char) :
    RMatches [RTok.any] cs ↔ ∀ c ∈ cs, lineTerm c = false := by
  constructor
  · intro h
    obtain ⟨s, cs', heq, hs, h'⟩ := h.any_inv
    obtain rfl := h'.nil_inv
    rw [heq]
    simpa using hs
  · intro h
    simpa using rMatches_any_of [] cs [] h .nil

lemma replaceStarStar_of_no_star : ∀ cs : List Char, '*' ∉ cs →
    replaceStarStar cs = cs := by
  intro cs
  induction cs with
  | nil => intro _; rfl
  | cons c rest ih =>
    intro h
    have hc : c ≠ '*' := fun hcc => h (hcc ▸ List.mem_cons_self c rest)
    have hrest : '*' ∉ rest := fun hm => h (List.mem_cons_of_mem c hm)
    simp [replaceStarStar, hc, ih hrest]

lemma replaceStar_of_no_star : ∀ cs : List Char, '*' ∉ cs →
    replaceStar cs = cs := by
  intro cs
  induction cs with
  | nil => intro _; rfl
  | cons c rest ih =>
    intro h
    have hc : c ≠ '*' := fun hcc => h (hcc ▸ List.mem_cons_self c rest)
    have hrest : '*' ∉ rest := fun hm => h (List.mem_cons_of_mem c hm)
    simp [replaceStar, hc, ih hrest]

lemma replacePlaceholder_of_no_sect : ∀ cs : List Char, '§' ∉ cs →
    replacePlaceholder cs = cs := by
  intro cs
  induction cs with
  | nil => intro _; rfl
  | cons c rest ih =>
    intro h
    have hc : c ≠ '§' := fun hcc => h (hcc ▸ List.mem_cons_self c rest)
    have hrest : '§' ∉ rest := fun hm => h (List.mem_cons_of_mem c hm)
    simp [replacePlaceholder, hc, ih hrest]

lemma mem_escapeRegexChars {x : Char} :
    ∀ cs : List Char, x ∈ escapeRegexChars cs → x = '\\' ∨ x ∈ cs := by
  intro cs
  induction cs with
  | nil => intro h; simp [escapeRegexChars] at h
  | cons c rest ih =>
    intro h
    by_cases hc : c ∈ escapeClass
    · simp only [escapeRegexChars, if_pos hc, List.mem_cons] at h
      rcases h with rfl | rfl | h
      · exact Or.inl rfl
      · exact Or.inr (List.mem_cons_self _ _)
      · rcases ih h with h' | h'
        · exact Or.inl h'
        · exact Or.inr (List.mem_cons_of_mem _ h')
    · simp only [escapeRegexChars, if_neg hc, List.mem_cons] at h
      rcases h with rfl | h
      · exact Or.inr (List.mem_cons_self _ _)
      · rcases ih h with h' | h'
        · exact Or.inl h'
        · exact Or.inr (List.mem_cons_of_mem _ h')

lemma lexRegex_escaped : ∀ gs : List Char, '?' ∉ gs → '*' ∉ gs →
    lexRegex (escapeRegexChars gs) = some (gs.map PreTok.lit) := by
  intro gs
  induction gs with
  | nil => intro _ _; rfl
  | cons c rest ih =>
    intro hq hs
    have hq' : '?' ∉ rest := fun h => hq (List.mem_cons_of_mem c h)
    have hs' : '*' ∉ rest := fun h => hs (List.mem_cons_of_mem c h)
    by_cases hc : c ∈ escapeClass
    · simp only [escapeRegexChars, if_pos hc]
      simp [lexRegex, ih hq' hs']
    · have hbs : c ≠ '\\' := fun he => hc (he ▸ (by decide : '\\' ∈ escapeClass))
      have hbr : c ≠ '[' := fun he => hc (he ▸ (by decide : '[' ∈ escapeClass))
      have hdot : c ≠ '.' := fun he => hc (he ▸ (by decide : '.' ∈ escapeClass))
      have hque : c ≠ '?' := fun he => hq (he ▸ List.mem_cons_self c rest)
      simp only [escapeRegexChars, if_neg hc]
      simp [lexRegex, hbs, hbr, hdot, hque, ih hq' hs']

lemma attachQs_lits : ∀ gs : List Char,
    attachQs (gs.map PreTok.lit) = some (gs.map RTok.lit) := by
  intro gs
  induction gs with
  | nil => rfl
  | cons c rest ih =>
    cases rest with
    | nil => simp [attachQs]
    | cons d rest' =>
      simp only [List.map_cons] at ih ⊢
      simp [attachQs, ih]

lemma globToRegex_of_plain (glob : String) (hs : '*' ∉ glob.data)
    (hq : '?' ∉ glob.data) (hp : '§' ∉ glob.data) :
    globToRegex glob = some (glob.data.map RTok.lit) := by
  have hesc_star : '*' ∉ escapeRegexChars glob.data := by
    intro h
    rcases mem_escapeRegexChars glob.data h with h' | h'
    · exact absurd h' (by decide)
    · exact hs h'
  have hesc_sect : '§' ∉ escapeRegexChars glob.data := by
    intro h
    rcases mem_escapeRegexChars glob.data h with h' | h'
    · exact absurd h' (by decide)
    · exact hp h'
  simp only [globToRegex, replaceStarStar_of_no_star _ hesc_star,
    replaceStar_of_no_star _ hesc_star,
    replacePlaceholder_of_no_sect _ hesc_sect,
    lexRegex_escaped glob.data hq hs, attachQs_lits]

lemma someMatches_iff (path : String) :
    ∀ globs : List String, (∀ g ∈ globs, (globToRegex g).isSome = true) →
      (someMatches path globs = some true ↔
        ∃ g ∈ globs, regexTest g path = some true) := by
  intro globs
  induction globs with
  | nil => intro _; simp [someMatches]
  | cons g gs ih =>
    intro hall
    have hg : (globToRegex g).isSome = true := hall g (List.mem_cons_self g gs)
    have hgs : ∀ x ∈ gs, (globToRegex x).isSome = true :=
      fun x hx => hall x (List.mem_cons_of_mem g hx)
    rcases hb : regexTest g path with _ | b
    · exfalso
      rw [regexTest] at hb
      rcases hopt : globToRegex g with _ | tks
      · rw [hopt] at hg; simp at hg
      · rw [hopt] at hb; simp at hb
    · cases b with
      | true =>
        simp only [someMatches, hb]
        constructor
        · intro _; exact ⟨g, List.mem_cons_self g gs, hb⟩
        · intro _; trivial
      | false =>
        simp only [someMatches, hb]
        rw [ih hgs]
        constructor
        · rintro ⟨x, hx, hxt⟩; exact ⟨x, List.mem_cons_of_mem g hx, hxt⟩
        · rintro ⟨x, hx, hxt⟩
          rcases List.mem_cons.mp hx with rfl | hx
          · rw [hb] at hxt; simp at hxt
          · exact ⟨x, hx, hxt⟩

/-- **C7, counterexample.** Three concrete paths on which the claim, as
stated, fails on the code: `**` compiles to `.*` with no `/s` flag, so it
does not match the path `a\nb` although the claim says `**` matches any
characters across segments; `?` is not in the escape class and acts as a
regex quantifier, so the star-free pattern `a?` matches the path `a` and
not the path `a?`, which contradicts a literal anchored full-path
translation; and the pattern `§§§` collides with the translation's internal
placeholder, compiles to `.*`, and matches an arbitrary unrelated path. -/
theorem pathMatchesAny_counterexample :
    regexTest "**" "a\nb" = some false ∧
      regexTest "a?" "a?" = some false ∧
      regexTest "a?" "a" = some true ∧
      regexTest "§§§" "src/anything.js" = some true := by
  refine ⟨by decide, by decide, by decide, by decide⟩

/-- **C7, amended.** Glob matching: an empty pattern set matches every path;
a non-empty pattern set whose patterns all compile matches exactly when at
least one pattern matches; each compiled pattern is an anchored full-path
matcher characterised by `RMatches` (never a prefix or substring test), in
which `*` consumes any characters except `/` (the pattern consisting of `*`
accepts exactly the `/`-free paths) and `**` consumes any characters except
line terminators — it crosses `/` but, compiled to `.*` with no `/s` flag,
not a newline; a pattern free of the mishandled characters `*` aside (no
`?`, which the escape class omits and which therefore quantifies, and no
`§`, which can collide with the internal placeholder) matches only the path
equal to it; and a pattern whose translation is not a valid regex — such as
a leading `?` — raises a compile error that propagates through
`pathMatchesAny` instead of matching. -/
theorem pathMatchesAny_spec_amended :
    (∀ path : String, pathMatchesAny path [] = some true) ∧
      (∀ (path : String) (globs : List String), globs ≠ [] →
        (∀ g ∈ globs, (globToRegex g).isSome = true) →
        (pathMatchesAny path globs = some true ↔
          ∃ g ∈ globs, regexTest g path = some true)) ∧
      (∀ (tks : List RTok) (cs : List Char),
        (matchRToks tks cs = true ↔ RMatches tks cs)) ∧
      (∀ (glob path : String) (tks : List RTok), globToRegex glob = some tks →
        (regexTest glob path = some true ↔ RMatches tks path.data)) ∧
      (∀ path : String,
        (regexTest "*" path = some true ↔ '/' ∉ path.data)) ∧
      (∀ path : String,
        (regexTest "**" path = some true ↔
          ∀ c ∈ path.data, lineTerm c = false)) ∧
      (∀ glob path : String, '*' ∉ glob.data → '?' ∉ glob.data →
        '§' ∉ glob.data → (regexTest glob path = some true ↔ path = glob)) ∧
      (globToRegex "?" = none ∧ pathMatchesAny "src/x" ["?"] = none) := by
  have hstar : globToRegex "*" = some [RTok.seg] := by decide
  have hdstar : globToRegex "**" = some [RTok.any] := by decide
  refine ⟨fun path => rfl, ?_, matchRToks_iff, ?_, ?_, ?_, ?_, by decide, by decide⟩
  · intro path globs hne hall
    rw [pathMatchesAny, if_neg hne]
    exact someMatches_iff path globs hall
  · intro glob path tks hcomp
    rw [regexTest, hcomp]
    simp only [Option.map_some', Option.some.injEq]
    exact matchRToks_iff tks path.data
  · intro path
    rw [regexTest, hstar]
    simp only [Option.map_some', Option.some.injEq]
    rw [matchRToks_iff, rMatches_seg_iff]
    constructor
    · intro h hm
      exact h '/' hm rfl
    · intro h c hc heq
      exact h (heq ▸ hc)
  · intro path
    rw [regexTest, hdstar]
    simp only [Option.map_some', Option.some.injEq]
    rw [matchRToks_iff, rMatches_any_iff]
  · intro glob path h1 h2 h3
    rw [regexTest, globToRegex_of_plain glob h1 h2 h3]
    simp only [Option.map_some', Option.some.injEq]
    rw [matchRToks_iff, rMatches_lits_iff]
    constructor
    · intro h
      exact String.ext h.symm
    · rintro rfl
      rfl

/-- Closed witness for C7's amended statement: the default pattern set (all
of it compiling) matches `src/app/main.js` via `src/**`; the `*` pattern
accepts a `/`-free path; a quirk-free literal pattern matches exactly the
equal path and nothing longer. -/
theorem pathMatchesAny_spec_amended_witness :
    (["src/**", "lib/**"] ≠ ([] : List String)) ∧
      (∀ g ∈ ["src/**", "lib/**"], (globToRegex (g : String)).isSome = true) ∧
      pathMatchesAny "src/app/main.js" ["src/**", "lib/**"] = some true ∧
      regexTest "*" "main.js" = some true ∧
      ('*' ∉ ("a.js" : String).data ∧ '?' ∉ ("a.js" : String).data ∧
        '§' ∉ ("a.js" : String).data) ∧
      regexTest "a.js" "a.js" = some true ∧
      ¬ regexTest "a.js" "src/a.js" = some true := by
  refine ⟨by simp, by decide, ?_, ?_, by decide, ?_, ?_⟩
  · exact (pathMatchesAny_spec_amended.2.1 "src/app/main.js" ["src/**", "lib/**"]
      (by simp) (by decide)).mpr ⟨"src/**", by simp, by decide⟩
  · exact (pathMatchesAny_spec_amended.2.2.2.2.1 "main.js").mpr (by decide)
  · exact (pathMatchesAny_spec_amended.2.2.2.2.2.2.1 "a.js" "a.js" (by decide)
      (by decide) (by decide)).mpr rfl
  · intro hcon
    have hcl := (pathMatchesAny_spec_amended.2.2.2.2.2.2.1 "a.js" "src/a.js"
      (by decide) (by decide) (by decide)).mp hcon
    simp at hcl

/-! ## Resilient Completion Client (`openaiChat`), retry classification

Source, `reviewer.js` lines 60–103.  The network call itself is external; we
model the service as a function from the (1-based) attempt number to that
attempt's outcome, and embed the `for (let attempt = 1; attempt <= 6; …)`
loop with its `catch` classification:

* an explicit `insufficient_quota` error code aborts immediately (checked
  before the status),
* HTTP 429 or any 5xx status sleeps and retries,
* every other failure is rethrown (fatal), including the
  `"OpenAI: empty response content"` error thrown when the response carries no
  content (its synthetic error has neither status nor code, so the catch
  rethrows it),
* falling out of the loop throws `"OpenAI: exhausted retries"`. -/

/-- Outcome of one attempt's network call: a response with its (possibly
empty) content, or an HTTP error with optional status and optional error
code. -/
inductive AttemptOutcome where
  | success (content : String) : AttemptOutcome
  | httpError (status : Option Nat) (code : Option String) : AttemptOutcome
deriving DecidableEq, Repr

/-- `status === 429 || (status >= 500 && status < 600)`; comparisons against
an absent status are false in JavaScript. -/
def isRetryStatus : Option Nat → Bool
  | some s => s == 429 || (decide (500 ≤ s) && decide (s < 600))
  | none => false

/-- Result of the whole `openaiChat` call: the returned content, or the
classified fatal error. -/
inductive ChatResult where
  | ok (content : String) : ChatResult
  | fatalQuota : ChatResult
  | fatalOther : ChatResult
  | exhausted : ChatResult
deriving DecidableEq, Repr

/-- What one iteration of the loop does with its attempt's outcome. -/
inductive StepOut where
  | done (r : ChatResult) : StepOut
  | retry : StepOut
deriving DecidableEq, Repr

/-- One loop iteration, `reviewer.js` lines 78–99: non-empty content returns;
empty content throws an error that the catch rethrows (no status, no code);
`insufficient_quota` is checked first and aborts; 429/5xx retries; anything
else is rethrown. -/
def classifyAttempt : AttemptOutcome → StepOut
  | .success c => if c = "" then .done .fatalOther else .done (.ok c)
  | .httpError st cd =>
    if cd = some "insufficient_quota" then .done .fatalQuota
    else if isRetryStatus st then .retry
    else .done .fatalOther

/-- The retry loop from attempt number `a` with `fuel` attempts left. -/
def chatFrom (svc : Nat → AttemptOutcome) : Nat → Nat → ChatResult
  | _, 0 => .exhausted
  | a, fuel + 1 =>
    match classifyAttempt (svc a) with
    | .done r => r
    | .retry => chatFrom svc (a + 1) fuel

/-- `openaiChat`: attempts run from 1 with a fixed budget of
`maxAttempts = 6`. -/
def openaiChat (svc : Nat → AttemptOutcome) : ChatResult :=
  chatFrom svc 1 6

lemma classifyAttempt_ne_done_exhausted (o : AttemptOutcome) :
    classifyAttempt o ≠ .done .exhausted := by
  match o with
  | .success c =>
    by_cases h : c = "" <;> simp [classifyAttempt, h]
  | .httpError st cd =>
    by_cases h : cd = some "insufficient_quota"
    · simp [classifyAttempt, h]
    · by_cases h2 : isRetryStatus st <;> simp [classifyAttempt, h, h2]

lemma chatFrom_exhausted_iff (svc : Nat → AttemptOutcome) :
    ∀ (fuel a : Nat),
      (chatFrom svc a fuel = .exhausted ↔
        ∀ j, j < fuel → classifyAttempt (svc (a + j)) = .retry) := by
  intro fuel
  induction fuel with
  | zero => intro a; simp [chatFrom]
  | succ fuel ih =>
    intro a
    constructor
    · intro h j hj
      rw [chatFrom] at h
      rcases hcl : classifyAttempt (svc a) with r | _
      · rw [hcl] at h
        exact absurd (h ▸ hcl) (classifyAttempt_ne_done_exhausted (svc a))
      · rw [hcl] at h
        match j with
        | 0 => simpa using hcl
        | j + 1 =>
          have := (ih (a + 1)).mp h j (by omega)
          simpa [Nat.add_assoc, Nat.add_comm 1 j] using this
    · intro h
      rw [chatFrom]
      have h0 := h 0 (by omega)
      simp only [Nat.add_zero] at h0
      rw [h0]
      refine (ih (a + 1)).mpr fun j hj => ?_
      have := h (j + 1) (by omega)
      simpa [Nat.add_assoc, Nat.add_comm 1 j] using this

lemma chatFrom_done_iff (svc : Nat → AttemptOutcome) (r : ChatResult)
    (hr : r ≠ .exhausted) :
    ∀ (fuel a : Nat),
      (chatFrom svc a fuel = r ↔
        ∃ k, k < fuel ∧ (∀ j, j < k → classifyAttempt (svc (a + j)) = .retry) ∧
          classifyAttempt (svc (a + k)) = .done r) := by
  intro fuel
  induction fuel with
  | zero =>
    intro a
    simp only [chatFrom]
    constructor
    · intro h; exact absurd h.symm hr
    · rintro ⟨k, hk, -⟩; omega
  | succ fuel ih =>
    intro a
    rw [chatFrom]
    rcases hcl : classifyAttempt (svc a) with r' | _
    · constructor
      · rintro rfl
        exact ⟨0, by omega, by omega, by simpa using hcl⟩
      · rintro ⟨k, hk, hpre, hdone⟩
        match k with
        | 0 =>
          simp only [Nat.add_zero] at hdone
          rw [hcl] at hdone
          injection hdone
        | k + 1 =>
          have := hpre 0 (by omega)
          simp only [Nat.add_zero] at this
          rw [hcl] at this
          injection this
    · rw [ih (a + 1)]
      constructor
      · rintro ⟨k, hk, hpre, hdone⟩
        refine ⟨k + 1, by omega, ?_, ?_⟩
        · intro j hj
          match j with
          | 0 => simpa using hcl
          | j + 1 =>
            have := hpre j (by omega)
            simpa [Nat.add_assoc, Nat.add_comm 1 j] using this
        · simpa [Nat.add_assoc, Nat.add_comm 1 k] using hdone
      · rintro ⟨k, hk, hpre, hdone⟩
        match k with
        | 0 =>
          simp only [Nat.add_zero] at hdone
          rw [hcl] at hdone
          simp at hdone
        | k + 1 =>
          refine ⟨k, by omega, ?_, ?_⟩
          · intro j hj
            have := hpre (j + 1) (by omega)
            simpa [Nat.add_assoc, Nat.add_comm 1 j] using this
          · simpa [Nat.add_assoc, Nat.add_comm 1 k] using hdone

/-- **C3.** The completion client's retry policy: an attempt is retried
exactly when the failure carries HTTP 429 or a 5xx status and does not carry
the `insufficient_quota` error code; the `insufficient_quota` code aborts
immediately as the quota-fatal error (no retry, regardless of status); the
attempt budget is exactly 6, the run ends in the retries-exhausted error
precisely when all 6 attempts were retryable, and any other outcome `r`
(success or a fatal error) happens precisely when some attempt `k ≤ 6`
produced it after a prefix of retryable attempts. -/
theorem openaiChat_retry_policy (svc : Nat → AttemptOutcome) :
    (openaiChat svc = .exhausted ↔
        ∀ j, j < 6 → classifyAttempt (svc (1 + j)) = .retry) ∧
      (∀ r : ChatResult, r ≠ .exhausted →
        (openaiChat svc = r ↔
          ∃ k, k < 6 ∧ (∀ j, j < k → classifyAttempt (svc (1 + j)) = .retry) ∧
            classifyAttempt (svc (1 + k)) = .done r)) ∧
      (∀ (st : Option Nat) (cd : Option String),
        (classifyAttempt (.httpError st cd) = .retry ↔
          cd ≠ some "insufficient_quota" ∧
            (st = some 429 ∨ ∃ s, st = some s ∧ 500 ≤ s ∧ s < 600))) ∧
      (∀ st : Option Nat,
        classifyAttempt (.httpError st (some "insufficient_quota")) =
          .done .fatalQuota) := by
  refine ⟨chatFrom_exhausted_iff svc 6 1,
    fun r hr => chatFrom_done_iff svc r hr 6 1, ?_, ?_⟩
  · intro st cd
    constructor
    · intro h
      by_cases hq : cd = some "insufficient_quota"
      · simp [classifyAttempt, hq] at h
      · refine ⟨hq, ?_⟩
        by_cases hs : isRetryStatus st
        · match st, hs with
          | some s, hs =>
            simp only [isRetryStatus, Bool.or_eq_true, beq_iff_eq,
              Bool.and_eq_true, decide_eq_true_eq] at hs
            rcases hs with rfl | ⟨h5, h6⟩
            · exact Or.inl rfl
            · exact Or.inr ⟨s, rfl, h5, h6⟩
        · simp [classifyAttempt, hq, hs] at h
    · rintro ⟨hq, hs⟩
      have hrs : isRetryStatus st = true := by
        rcases hs with rfl | ⟨s, rfl, h5, h6⟩
        · rfl
        · simp [isRetryStatus, h5, h6]
      simp [classifyAttempt, hq, hrs]
  · intro st
    simp [classifyAttempt]

/-- Closed witness for C3, realising the spec's own scenario: two 429
responses then a success returns the raw text unmodified (after exactly the
two retried attempts); an `insufficient_quota` failure on the very first
attempt is quota-fatal with no retries; six straight 500s exhaust the
budget. -/
theorem openaiChat_retry_policy_witness :
    openaiChat (fun a => if a ≤ 2 then .httpError (some 429) none
      else .success "raw text") = .ok "raw text" ∧
      openaiChat (fun _ => .httpError (some 429) (some "insufficient_quota")) =
        .fatalQuota ∧
      openaiChat (fun _ => .httpError (some 500) none) = .exhausted := by
  refine ⟨?_, ?_, ?_⟩
  · exact ((openaiChat_retry_policy _).2.1 (.ok "raw text") (by simp)).mpr
      ⟨2, by omega, fun j hj => by
        interval_cases j <;> decide, by decide⟩
  · exact ((openaiChat_retry_policy _).2.1 .fatalQuota (by simp)).mpr
      ⟨0, by omega, by omega, by decide⟩
  · exact (openaiChat_retry_policy _).1.mpr fun j hj => by decide

/-! ## Backoff computation (`parseDurationSeconds`, `waitSecondsFrom`)

Source, `reviewer.js` lines 41–57.  Values are exact rationals: the embedded
JavaScript arithmetic here is on small integers and on `Number(v)` of a
`\d+(\.\d+)?` literal, both exact in floating point for the magnitudes
involved.  `Math.random()` becomes an explicit `jitter` parameter. -/

/-- Numeric value of a digit string (the value `Number` gives its integer
part). -/
def digitsToNat (ds : List Char) : Nat :=
  ds.foldl (fun n c => 10 * n + (c.toNat - '0'.toNat)) 0

/-- The test `/^\d+(\.\d+)?$/.test(v)`. -/
def isPlainNumber (cs : List Char) : Bool :=
  let ds := cs.takeWhile fun c => c.isDigit
  let rest := cs.dropWhile fun c => c.isDigit
  decide (ds ≠ []) &&
    (match rest with
     | [] => true
     | '.' :: fs => decide (fs ≠ []) && fs.all fun c => c.isDigit
     | _ => false)

/-- `Number(v)` for a string accepted by `isPlainNumber`. -/
def plainValue (cs : List Char) : ℚ :=
  let ds := cs.takeWhile fun c => c.isDigit
  let rest := cs.dropWhile fun c => c.isDigit
  match rest with
  | '.' :: fs => (digitsToNat ds : ℚ) + (digitsToNat fs : ℚ) / (10 : ℚ) ^ fs.length
  | _ => (digitsToNat ds : ℚ)

/-- One optional group `(?:(\d+)X)?` of the duration regex, matched greedily
at the current position (`X` one of `h`/`m`/`s`, case-insensitive because of
the `/i` flag): if a non-empty digit run followed by the unit letter is
present it is consumed, otherwise the group matches empty and contributes 0. -/
def parseUnitGroup (unit : Char) (cs : List Char) : Nat × List Char :=
  let ds := cs.takeWhile fun c => c.isDigit
  let rest := cs.dropWhile fun c => c.isDigit
  match rest with
  | u :: rest' =>
    if decide (ds ≠ []) && (u.toLower == unit) then (digitsToNat ds, rest')
    else (0, cs)
  | [] => (0, cs)

/-- `parseDurationSeconds(v)`: the empty (or absent) header is 0; a plain
`\d+(\.\d+)?` string is its numeric value; otherwise the
`/(?:(\d+)h)?(?:(\d+)m)?(?:(\d+)s)?/i` match at the start of the string
(every group optional, missing components default to 0, trailing characters
ignored) gives `h*3600 + m*60 + s`. -/
def parseDurationSeconds (v : String) : ℚ :=
  if v = "" then 0
  else if isPlainNumber v.data then plainValue v.data
  else
    let g1 := parseUnitGroup 'h' v.data
    let g2 := parseUnitGroup 'm' g1.2
    let g3 := parseUnitGroup 's' g2.2
    ((g1.1 * 3600 + g2.1 * 60 + g3.1 : Nat) : ℚ)

/-- The three response headers the backoff reads; an absent header is the
empty string (`headers?.[n] || ""`). -/
structure RateHeaders where
  retryAfter : String
  resetRequests : String
  resetTokens : String

/-- `waitSecondsFrom(headers, attempt)` with the `Math.random()` sample made
explicit: `max(retry-after, reset-requests, reset-tokens,
min(60, 2^(attempt-1)) + jitter)`. -/
def waitSecondsFrom (h : RateHeaders) (attempt : Nat) (jitter : ℚ) : ℚ :=
  let retryAfter := parseDurationSeconds h.retryAfter
  let resetReq := parseDurationSeconds h.resetRequests
  let resetTok := parseDurationSeconds h.resetTokens
  let expBase := min (60 : ℚ) ((2 : ℚ) ^ (attempt - 1))
  max retryAfter (max resetReq (max resetTok (expBase + jitter)))

lemma expBase_nonneg (attempt : Nat) : (0 : ℚ) ≤ min 60 ((2 : ℚ) ^ (attempt - 1)) :=
  le_min (by norm_num) (pow_nonneg (by norm_num) _)

lemma waitSecondsFrom_ge_exp (h : RateHeaders) (a : Nat) (j : ℚ) :
    min (60 : ℚ) ((2 : ℚ) ^ (a - 1)) + j ≤ waitSecondsFrom h a j :=
  le_trans (le_max_right _ _)
    (le_trans (le_max_right _ _) (le_max_right _ _))

/-- **C6.** The backoff wait equals
`max(retry-after, reset-requests, reset-tokens, min(60, 2^(attempt-1)) + jitter)`
(it is an upper bound of the four components and attained by one of them),
with each header parsed either as a plain seconds count or as an `NhNmNs`
duration with missing components defaulting to 0 (illustrated on
representative headers); under identical headers the wait is monotone in the
attempt number — with the same jitter sample for every attempt, and also
across arbitrary jitter samples in `[0,1)` for the attempt numbers `1..6`
that the fixed budget can produce — and every wait is ≥ 0. -/
theorem waitSecondsFrom_spec (h : RateHeaders) (a : Nat) (j j' : ℚ)
    (ha1 : 1 ≤ a) (ha6 : a + 1 ≤ 6) (hj0 : 0 ≤ j) (hj1 : j < 1) (hj0' : 0 ≤ j') :
    (0 ≤ waitSecondsFrom h a j) ∧
      (∀ b : Nat, waitSecondsFrom h b j ≤ waitSecondsFrom h (b + 1) j) ∧
      (waitSecondsFrom h a j ≤ waitSecondsFrom h (a + 1) j') ∧
      (parseDurationSeconds h.retryAfter ≤ waitSecondsFrom h a j ∧
        parseDurationSeconds h.resetRequests ≤ waitSecondsFrom h a j ∧
        parseDurationSeconds h.resetTokens ≤ waitSecondsFrom h a j ∧
        min 60 ((2 : ℚ) ^ (a - 1)) + j ≤ waitSecondsFrom h a j) ∧
      (waitSecondsFrom h a j = parseDurationSeconds h.retryAfter ∨
        waitSecondsFrom h a j = parseDurationSeconds h.resetRequests ∨
        waitSecondsFrom h a j = parseDurationSeconds h.resetTokens ∨
        waitSecondsFrom h a j = min 60 ((2 : ℚ) ^ (a - 1)) + j) ∧
      (parseDurationSeconds "" = 0 ∧ parseDurationSeconds "90" = 90 ∧
        parseDurationSeconds "2.5" = 5 / 2 ∧
        parseDurationSeconds "1h2m3s" = 3723 ∧
        parseDurationSeconds "45s" = 45 ∧ parseDurationSeconds "5m" = 300) := by
  have hexp : ∀ b : Nat, (0 : ℚ) ≤ min 60 ((2 : ℚ) ^ (b - 1)) := expBase_nonneg
  refine ⟨?_, ?_, ?_, ⟨?_, ?_, ?_, waitSecondsFrom_ge_exp h a j⟩, ?_, ?_⟩
  · exact le_trans (by positivity) (waitSecondsFrom_ge_exp h a j)
  · intro b
    unfold waitSecondsFrom
    refine max_le_max le_rfl (max_le_max le_rfl (max_le_max le_rfl ?_))
    have : (2 : ℚ) ^ (b - 1) ≤ (2 : ℚ) ^ (b + 1 - 1) := by
      apply pow_le_pow_right₀ (by norm_num)
      omega
    exact add_le_add_right (min_le_min le_rfl this) j
  · unfold waitSecondsFrom
    refine max_le_max le_rfl (max_le_max le_rfl (max_le_max le_rfl ?_))
    have h1 : (2 : ℚ) ^ (a - 1) ≤ 16 := by
      calc (2 : ℚ) ^ (a - 1) ≤ (2 : ℚ) ^ (4 : Nat) := by
            apply pow_le_pow_right₀ (by norm_num)
            omega
        _ = 16 := by norm_num
    have h2 : (2 : ℚ) ^ (a + 1 - 1) ≤ 32 := by
      calc (2 : ℚ) ^ (a + 1 - 1) ≤ (2 : ℚ) ^ (5 : Nat) := by
            apply pow_le_pow_right₀ (by norm_num)
            omega
        _ = 32 := by norm_num
    have hdouble : (2 : ℚ) ^ (a + 1 - 1) = 2 * (2 : ℚ) ^ (a - 1) := by
      have hsub : a + 1 - 1 = (a - 1) + 1 := by omega
      rw [hsub, pow_succ]
      ring
    have hone : (1 : ℚ) ≤ (2 : ℚ) ^ (a - 1) := by
      simpa using pow_le_pow_right₀ (by norm_num : (1 : ℚ) ≤ 2) (Nat.zero_le (a - 1))
    have hmin1 : min (60 : ℚ) ((2 : ℚ) ^ (a - 1)) = (2 : ℚ) ^ (a - 1) :=
      min_eq_right (by linarith)
    have hmin2 : min (60 : ℚ) ((2 : ℚ) ^ (a + 1 - 1)) = (2 : ℚ) ^ (a + 1 - 1) :=
      min_eq_right (by linarith)
    rw [hmin1, hmin2, hdouble]
    linarith
  · exact le_max_left _ _
  · exact le_trans (le_max_left _ _) (le_max_right _ _)
  · exact le_trans (le_max_left _ _) (le_trans (le_max_right _ _) (le_max_right _ _))
  · unfold waitSecondsFrom
    rcases max_choice (parseDurationSeconds h.retryAfter)
        (max (parseDurationSeconds h.resetRequests)
          (max (parseDurationSeconds h.resetTokens)
            (min 60 ((2 : ℚ) ^ (a - 1)) + j))) with h1 | h1
    · exact Or.inl h1
    · rw [h1]
      rcases max_choice (parseDurationSeconds h.resetRequests)
          (max (parseDurationSeconds h.resetTokens)
            (min 60 ((2 : ℚ) ^ (a - 1)) + j)) with h2 | h2
      · exact Or.inr (Or.inl h2)
      · rw [h2]
        rcases max_choice (parseDurationSeconds h.resetTokens)
            (min 60 ((2 : ℚ) ^ (a - 1)) + j) with h3 | h3
        · exact Or.inr (Or.inr (Or.inl h3))
        · exact Or.inr (Or.inr (Or.inr h3))
  · refine ⟨rfl, by decide, ?_, by decide, by decide, by decide⟩
    have h25 : parseDurationSeconds "2.5" =
        ((2 : ℕ) : ℚ) + ((5 : ℕ) : ℚ) / (10 : ℚ) ^ (1 : ℕ) := rfl
    rw [h25]
    norm_num

/-- Closed witness for C6 at attempt 1 with jitter samples 0 and 1/2 and
empty headers. -/
theorem waitSecondsFrom_spec_witness :
    ((1 : Nat) ≤ 1 ∧ 1 + 1 ≤ 6 ∧ (0 : ℚ) ≤ 0 ∧ (0 : ℚ) < 1 ∧ (0 : ℚ) ≤ 1 / 2) ∧
      0 ≤ waitSecondsFrom ⟨"", "", ""⟩ 1 0 ∧
      waitSecondsFrom ⟨"", "", ""⟩ 1 0 ≤ waitSecondsFrom ⟨"", "", ""⟩ (1 + 1) (1 / 2) := by
  have h := waitSecondsFrom_spec ⟨"", "", ""⟩ 1 0 (1 / 2)
    (by norm_num) (by norm_num) (by norm_num) (by norm_num) (by norm_num)
  exact ⟨⟨by norm_num, by norm_num, by norm_num, by norm_num, by norm_num⟩,
    h.1, h.2.2.1⟩

/-! ## Output Validator/Repairer (`main`, lines 294–313)

Source: `try { parsed = SCHEMA.parse(JSON.parse(content)) }` — on failure,
search for a fenced block (a ```json fence first, case-insensitively, then a
plain ``` fence) and try its contents once — on failure, issue exactly one
repair request and parse its response directly, letting any failure
propagate.  `JSON.parse` composed with the zod `SCHEMA.parse` is an external
library pair; it is modelled as an abstract validation function
`pv : String → Option V` (`none` = a parse or schema error was thrown).  The
completion service's answer to the single repair request is the parameter
`repairResp`.  The fence regexes
(```` /```json\s*([\s\S]*?)```/i ```` and ````/```\s*([\s\S]*?)```/ ````)
are embedded concretely: the first position where the opening token occurs,
greedy whitespace skip, then a lazy capture up to the first closing
``` ``` ``` — if the first opening token is not followed by a closing token
anywhere, no later occurrence can be either (any later opening token would
itself supply the closing backticks), so the regex fails to match at all. -/

/-- The backtick character (`U+0060`), written by code to keep fence tokens
readable in source. -/
def backtick : Char := Char.ofNat 96

/-- The closing/plain fence token ``` ``` ```. -/
def fenceTok : List Char := [backtick, backtick, backtick]

/-- The labeled opening token ```` ```json ````. -/
def fenceTokJson : List Char := fenceTok ++ "json".data

/-- Case-insensitive prefix test (the `/i` flag; the characters of the plain
fence token are unaffected by case folding). -/
def isPrefCI : List Char → List Char → Bool
  | [], _ => true
  | _ :: _, [] => false
  | p :: ps, c :: cs => p.toLower == c.toLower && isPrefCI ps cs

/-- Suffix following the first (case-insensitive) occurrence of `pat`. -/
def findAfterCI (pat : List Char) : List Char → Option (List Char)
  | [] => if isPrefCI pat [] then some [] else none
  | c :: rest =>
    if isPrefCI pat (c :: rest) then some ((c :: rest).drop pat.length)
    else findAfterCI pat rest

/-- Split at the first occurrence of `pat`: the part before it and the part
after it. -/
def splitAtFirst (pat : List Char) : List Char → Option (List Char × List Char)
  | [] => if isPrefCI pat [] then some ([], []) else none
  | c :: rest =>
    if isPrefCI pat (c :: rest) then some ([], (c :: rest).drop pat.length)
    else
      match splitAtFirst pat rest with
      | some q => some (c :: q.1, q.2)
      | none => none

/-- The common whitespace characters of the regex class `\s`. -/
def isJsWs (c : Char) : Bool :=
  c = ' ' || c = '\t' || c = '\n' || c = '\r' || c = '\x0B' || c = '\x0C'

/-- Contents captured by one fence regex: after the first occurrence of the
opening token, skip whitespace greedily, then capture lazily up to the first
closing token. -/
def extractFenceWith (openTok : List Char) (cs : List Char) : Option String :=
  match findAfterCI openTok cs with
  | none => none
  | some rest =>
    let body := rest.dropWhile isJsWs
    match splitAtFirst fenceTok body with
    | some q => some (String.mk q.1)
    | none => none

/-- `content.match(/```json…/i) || content.match(/```…/)`: the labeled fence
is preferred, then the plain fence. -/
def extractFenced (content : String) : Option String :=
  match extractFenceWith fenceTokJson content.data with
  | some b => some b
  | none => extractFenceWith fenceTok content.data

/-- Result of the validation pipeline, together with how many repair
round-trips were issued. -/
inductive ValidateResult (V : Type) where
  | ok (v : V) (repairCalls : Nat) : ValidateResult V
  | schemaError (repairCalls : Nat) : ValidateResult V
deriving DecidableEq, Repr

/-- Repair round-trips recorded in a result. -/
def repairCallsOf {V : Type} : ValidateResult V → Nat
  | .ok _ n => n
  | .schemaError n => n

/-- The three-stage parse of `main`: direct parse, then the fenced block (if
one is found, a single try whose own failure is swallowed), then exactly one
repair request whose response is parsed directly — with no fence extraction —
and whose failure fails the whole operation. -/
def validateRaw {V : Type} (pv : String → Option V) (repairResp content : String) :
    ValidateResult V :=
  match pv content with
  | some v => .ok v 0
  | none =>
    match (extractFenced content).bind pv with
    | some v => .ok v 0
    | none =>
      match pv repairResp with
      | some v => .ok v 1
      | none => .schemaError 1

/-- **C4.** Validation tries three stages in order and short-circuits on the
first success: a raw text that parses and validates directly succeeds with no
repair call; otherwise a fenced block whose contents parse and validate
succeeds with no repair call; otherwise exactly one repair request is issued
and its response is parsed and validated with no fence-extraction fallback —
its result alone decides between success (after the one repair call) and a
schema-validation failure.  In every case at most one repair round-trip is
issued. -/
theorem validateRaw_spec {V : Type} (pv : String → Option V)
    (repairResp content : String) :
    (∀ v : V, pv content = some v →
        validateRaw pv repairResp content = .ok v 0) ∧
      (∀ (f : String) (v : V), pv content = none → extractFenced content = some f →
        pv f = some v → validateRaw pv repairResp content = .ok v 0) ∧
      (pv content = none → (extractFenced content).bind pv = none →
        validateRaw pv repairResp content =
          (match pv repairResp with
           | some v => ValidateResult.ok v 1
           | none => ValidateResult.schemaError 1)) ∧
      repairCallsOf (validateRaw pv repairResp content) ≤ 1 := by
  refine ⟨?_, ?_, ?_, ?_⟩
  · intro v hv
    simp [validateRaw, hv]
  · intro f v hnone hf hfv
    simp [validateRaw, hnone, hf, hfv]
  · intro hnone hfence
    simp only [validateRaw, hnone, hfence]
  · unfold validateRaw
    cases hpv : pv content with
    | some v => simp [repairCallsOf]
    | none =>
      cases hf : (extractFenced content).bind pv with
      | some v => simp [repairCallsOf]
      | none =>
        cases hr : pv repairResp with
        | some v => simp [repairCallsOf]
        | none => simp [repairCallsOf]

/-- Closed witness for C4 with a toy validator accepting exactly the string
`GOOD`: direct success with no repair; a ```json fence around `GOOD` rescued
with no repair; unparseable prose repaired by a conforming response (one
repair call); unparseable prose whose repair response is still unparseable
fails with the schema error (the fenced block inside the repair response is
ignored). -/
theorem validateRaw_spec_witness :
    validateRaw (fun s => if s = "GOOD" then some 0 else none) "?" "GOOD" =
        .ok 0 0 ∧
      validateRaw (fun s => if s = "GOOD" then some 0 else none) "?"
        "here:\n\x60\x60\x60json\nGOOD\x60\x60\x60 bye" = .ok 0 0 ∧
      validateRaw (fun s => if s = "GOOD" then some 0 else none) "GOOD"
        "prose" = .ok 0 1 ∧
      validateRaw (fun s => if s = "GOOD" then some 0 else none)
        "\x60\x60\x60json\nGOOD\x60\x60\x60" "prose" = .schemaError 1 := by
  have h := validateRaw_spec (V := Nat)
    (fun s => if s = "GOOD" then some 0 else none) "?" "GOOD"
  refine ⟨h.1 0 (by decide), ?_, ?_, ?_⟩
  · have h2 := validateRaw_spec (V := Nat)
      (fun s => if s = "GOOD" then some 0 else none) "?"
      "here:\n\x60\x60\x60json\nGOOD\x60\x60\x60 bye"
    exact h2.2.1 "GOOD" 0 (by decide) (by decide) (by decide)
  · have h3 := validateRaw_spec (V := Nat)
      (fun s => if s = "GOOD" then some 0 else none) "GOOD" "prose"
    exact (h3.2.2.1 (by decide) (by decide)).trans (by decide)
  · have h4 := validateRaw_spec (V := Nat)
      (fun s => if s = "GOOD" then some 0 else none)
      "\x60\x60\x60json\nGOOD\x60\x60\x60" "prose"
    exact (h4.2.2.1 (by decide) (by decide)).trans (by decide)

/-! ## Strict output schema and post-validation caps (`SCHEMA`, lines 20–37
and 316–318)

The zod schema fixes the field shapes (intrinsic in the typed embedding
below) and imposes exactly one cardinality constraint: `comments` has
`.max(100)`.  The configured comment cap (`MAX_COMMENTS`, default 30) is
*not* part of the schema; it is applied after validation by
`parsed.comments.slice(0, MAX_COMMENTS)`, next to the tests/docs feature
flags. -/

/-- One proposed comment of the schema (`line`/`start_line`/`suggestion`
optional). -/
structure ProposedComment where
  path : String
  line : Option Int
  start_line : Option Int
  body : String
  suggestion : Option String
deriving DecidableEq, Repr

/-- One generated test file of the schema. -/
structure TestFile where
  path : String
  content : String
deriving DecidableEq, Repr

/-- One generated doc file of the schema (`append` optional). -/
structure DocFile where
  path : String
  content : String
  append : Option Bool
deriving DecidableEq, Repr

/-- A structurally well-typed candidate output (what survives the shape part
of `SCHEMA.parse`). -/
structure RawOutput where
  comments : List ProposedComment
  tests : List TestFile
  docs : List DocFile
deriving DecidableEq, Repr

/-- The residual check of `SCHEMA.parse` beyond the field shapes:
`comments: z.array(…).max(100)`. -/
def schemaAccepts (o : RawOutput) : Bool :=
  decide (o.comments.length ≤ 100)

/-- Lines 316–318 of `main`: clear tests/docs when the feature flags are off
and truncate comments to `MAX_COMMENTS` (`slice(0, MAX_COMMENTS)` applied
only when the list is longer). -/
def applyCapsAndFlags (testsEnabled docsEnabled : Bool) (maxComments : Nat)
    (o : RawOutput) : RawOutput where
  comments :=
    if o.comments.length > maxComments then o.comments.take maxComments
    else o.comments
  tests := if testsEnabled then o.tests else []
  docs := if docsEnabled then o.docs else []

/-- A harmless concrete comment used by counterexamples and witnesses. -/
def sampleComment : ProposedComment :=
  ⟨"src/a.js", some 1, none, "consider renaming this variable", none⟩

/-- **C8, counterexample.** An output with 31 comments — more than the
configured default cap of 30 — passes schema validation, because the schema's
only cardinality constraint is `.max(100)`; so "whenever validation succeeds
the comments sequence has length at most the configured cap (default 30)" is
false on the code. -/
theorem schemaCap_counterexample :
    schemaAccepts ⟨List.replicate 31 sampleComment, [], []⟩ = true ∧
      (RawOutput.mk (List.replicate 31 sampleComment) [] []).comments.length =
        31 ∧ 30 < 31 := by
  refine ⟨by decide, by simp, by omega⟩

/-- **C8, amended.** Validation bounds the comments sequence only by the
schema's own limit of 100 (`schemaAccepts` holds exactly for ≤ 100 comments);
the configured cap (default 30) is enforced afterwards by truncation, so the
comment list actually dispatched to publishing never exceeds the configured
cap — in particular never exceeds 30 under the default configuration. -/
theorem schemaCap_amended :
    (∀ o : RawOutput, (schemaAccepts o = true ↔ o.comments.length ≤ 100)) ∧
      (∀ (te de : Bool) (cap : Nat) (o : RawOutput),
        (applyCapsAndFlags te de cap o).comments.length ≤ cap) ∧
      (∀ (te de : Bool) (o : RawOutput),
        (applyCapsAndFlags te de 30 o).comments.length ≤ 30) := by
  have hcap : ∀ (te de : Bool) (cap : Nat) (o : RawOutput),
      (applyCapsAndFlags te de cap o).comments.length ≤ cap := by
    intro te de cap o
    simp only [applyCapsAndFlags]
    by_cases h : o.comments.length > cap
    · simp [h, List.length_take]
    · simp [h]; omega
  exact ⟨fun o => by simp [schemaAccepts], hcap, fun te de o => hcap te de 30 o⟩

/-! ## Comment Dispatcher (`main`, lines 320–372)

For every validated comment a human-readable fallback bullet is produced;
a comment whose `line` ordinal resolves through `positionFromNthAdded`
additionally becomes an inline review comment.  If any inline comments
exist, one batched `pulls.createReview` call is attempted; its `catch`
distinguishes a 422 rejection from other failures *only in the log message* —
both branches fall through, so no publish failure of the batch is fatal and
`inlinePosted` stays false, which routes the run to the single fallback
issue comment listing every originally-proposed comment. -/

/-- One element of the `comments` array handed to `pulls.createReview`. -/
structure InlineComment where
  path : String
  position : Nat
  body : String
deriving DecidableEq, Repr

/-- The ```` ```suggestion ```` block appended to a comment body when a
suggestion is present. -/
def suggestionBlock : Option String → String
  | some s => "\n\n\x60\x60\x60suggestion\n" ++ s ++ "\n\x60\x60\x60"
  | none => ""

/-- JavaScript truthiness of the optional `line` field (`c.line ? … : …`):
absent and 0 are falsy. -/
def lineTruthy : Option Int → Bool
  | some n => n != 0
  | none => false

/-- The fallback bullet built for every proposed comment: path, ordinal (when
truthy), body and suggestion. -/
def bulletOf (c : ProposedComment) : String :=
  "• " ++ c.path ++
    (match c.line with
     | some n => if n = 0 then "" else " (added line #" ++ toString n ++ ")"
     | none => "") ++
    "\n" ++ c.body ++ suggestionBlock c.suggestion

/-- One iteration of the `for (const c of parsed.comments)` loop: always push
the fallback bullet; additionally push an inline comment when the patch for
`c.path` (absent patches behave as `""`) resolves the ordinal to a
position. -/
def dispatchStep (patchMap : List (String × String))
    (acc : List InlineComment × List String) (c : ProposedComment) :
    List InlineComment × List String :=
  let patch := (patchMap.lookup c.path).getD ""
  let pos := if lineTruthy c.line then positionFromNthAdded patch c.line else none
  let fallback := acc.2 ++ [bulletOf c]
  match pos with
  | some p =>
    (acc.1 ++ [⟨c.path, p, c.body ++ suggestionBlock c.suggestion⟩], fallback)
  | none => (acc.1, fallback)

/-- The whole comment loop: the produced `(inlineComments, fallbackSnippets)`
pair. -/
def buildDispatch (patchMap : List (String × String))
    (comments : List ProposedComment) : List InlineComment × List String :=
  comments.foldl (dispatchStep patchMap) ([], [])

/-- Host's answer to the one batched `pulls.createReview` call. -/
inductive PublishOutcome where
  | ok : PublishOutcome
  | err (status : Option Nat) : PublishOutcome
deriving DecidableEq, Repr

/-- Observable effects of the publish stage. -/
structure DispatchResult where
  createReviewCalls : Nat
  inlinePosted : Bool
  fallbackPosted : Option (List String)
  fatal : Bool
deriving DecidableEq, Repr

/-- Lines 343–372: one `createReview` attempt iff inline comments exist;
`inlinePosted` only on success; the `catch` logs (422 and non-422 alike) and
falls through, so nothing here is fatal; the fallback issue comment carries
all snippets whenever nothing was posted inline and snippets exist. -/
def dispatchRun (inline : List InlineComment) (snippets : List String)
    (outcome : PublishOutcome) : DispatchResult where
  createReviewCalls := if inline = [] then 0 else 1
  inlinePosted :=
    if inline = [] then false
    else match outcome with | .ok => true | .err _ => false
  fallbackPosted :=
    if (if inline = [] then false
        else match outcome with | .ok => true | .err _ => false) = false ∧
        snippets ≠ [] then
      some snippets
    else none
  fatal := false

lemma buildDispatch_snd (patchMap : List (String × String))
    (comments : List ProposedComment) :
    ∀ acc : List InlineComment × List String,
      (comments.foldl (dispatchStep patchMap) acc).2 =
        acc.2 ++ comments.map bulletOf := by
  induction comments with
  | nil => intro acc; simp
  | cons c cs ih =>
    intro acc
    have hstep : (dispatchStep patchMap acc c).2 = acc.2 ++ [bulletOf c] := by
      unfold dispatchStep
      rcases hpos : (if lineTruthy c.line then
          positionFromNthAdded ((patchMap.lookup c.path).getD "") c.line
        else none) with - | p <;> simp [hpos]
    simp [List.foldl_cons, ih, hstep]

/-- **C2, counterexample.** A non-422 rejection of the batched inline review
(here an explicit 500) is *not* fatal: the catch swallows it and the run
publishes the fallback comment, exactly as for a 422.  This falsifies "any
publish failure other than that 422 rejection is fatal to the run". -/
theorem publishRejected_counterexample :
    (dispatchRun [⟨"src/a.js", 2, "consider renaming this variable"⟩]
        [bulletOf sampleComment] (.err (some 500))).fatal = false ∧
      (dispatchRun [⟨"src/a.js", 2, "consider renaming this variable"⟩]
        [bulletOf sampleComment] (.err (some 500))).fallbackPosted =
        some [bulletOf sampleComment] ∧
      (some (500 : Nat) ≠ some 422) := by
  refine ⟨rfl, rfl, by decide⟩

/-- **C2, amended.** When the host rejects the batched inline review — with
the 422 "unprocessable" status or with any other failure — the dispatcher
does not retry the batch (at most one `createReview` call is ever made, and
exactly one when inline comments exist), the failure is never fatal, nothing
is posted inline, and the single fallback comment carries every
originally-proposed comment's bullet (the snippet list is exactly
`comments.map bulletOf`). -/
theorem publishRejected_amended (patchMap : List (String × String))
    (comments : List ProposedComment) (inline : List InlineComment)
    (snippets : List String) (st : Option Nat) (outcome : PublishOutcome) :
    (dispatchRun inline snippets outcome).createReviewCalls ≤ 1 ∧
      (inline ≠ [] → (dispatchRun inline snippets outcome).createReviewCalls = 1) ∧
      (dispatchRun inline snippets (.err st)).fatal = false ∧
      (dispatchRun inline snippets (.err st)).inlinePosted = false ∧
      (snippets ≠ [] →
        (dispatchRun inline snippets (.err st)).fallbackPosted = some snippets) ∧
      (buildDispatch patchMap comments).2 = comments.map bulletOf := by
  have hposted : (dispatchRun inline snippets (.err st)).inlinePosted = false := by
    unfold dispatchRun
    by_cases h : inline = [] <;> simp [h]
  refine ⟨?_, ?_, rfl, hposted, ?_, ?_⟩
  · unfold dispatchRun
    by_cases h : inline = [] <;> simp [h]
  · intro h
    unfold dispatchRun
    simp [h]
  · intro hs
    unfold dispatchRun
    by_cases h : inline = [] <;> simp [h, hs]
  · simpa using buildDispatch_snd patchMap comments ([], [])

/-- Closed witness for C2's amended statement: one resolvable comment and one
unresolvable comment produce exactly one inline comment and two fallback
bullets; a 422 rejection posts both bullets as the fallback with one
(unretried) batch call and no fatality. -/
theorem publishRejected_amended_witness :
    (buildDispatch [("src/a.js", "@@ -1,1 +1,2 @@\n ctx\n+new line")]
        [⟨"src/a.js", some 1, none, "on the new line", none⟩,
          ⟨"src/other.js", some 1, none, "elsewhere", none⟩]).1 =
        [⟨"src/a.js", 3, "on the new line"⟩] ∧
      ([bulletOf ⟨"src/a.js", some 1, none, "on the new line", none⟩,
          bulletOf ⟨"src/other.js", some 1, none, "elsewhere", none⟩] ≠
        ([] : List String)) ∧
      (dispatchRun [⟨"src/a.js", 3, "on the new line"⟩]
          [bulletOf ⟨"src/a.js", some 1, none, "on the new line", none⟩,
            bulletOf ⟨"src/other.js", some 1, none, "elsewhere", none⟩]
          (.err (some 422))).fallbackPosted =
        some [bulletOf ⟨"src/a.js", some 1, none, "on the new line", none⟩,
          bulletOf ⟨"src/other.js", some 1, none, "elsewhere", none⟩] ∧
      (dispatchRun [⟨"src/a.js", 3, "on the new line"⟩]
          [bulletOf ⟨"src/a.js", some 1, none, "on the new line", none⟩,
            bulletOf ⟨"src/other.js", some 1, none, "elsewhere", none⟩]
          (.err (some 422))).createReviewCalls = 1 ∧
      (dispatchRun [⟨"src/a.js", 3, "on the new line"⟩]
          [bulletOf ⟨"src/a.js", some 1, none, "on the new line", none⟩,
            bulletOf ⟨"src/other.js", some 1, none, "elsewhere", none⟩]
          (.err (some 422))).fatal = false := by
  have h := publishRejected_amended
    [("src/a.js", "@@ -1,1 +1,2 @@\n ctx\n+new line")]
    ([] : List ProposedComment)
    [⟨"src/a.js", 3, "on the new line"⟩]
    [bulletOf ⟨"src/a.js", some 1, none, "on the new line", none⟩,
      bulletOf ⟨"src/other.js", some 1, none, "elsewhere", none⟩]
    (some 422) (.err (some 422))
  refine ⟨by decide, by simp, ?_, h.2.1 (by simp), h.2.2.1⟩
  exact h.2.2.2.2.1 (by simp)

/-! ## Changed-file selection and prompt trimming (`main` lines 236–245,
`trimPatchForPrompt` lines 172–178)

The file loop skips files with a falsy patch (absent or empty), files with
status `"removed"`, files under `.github/`, and files outside the target
globs.  Eligible files contribute a trimmed diff to the prompt
(`trimPatchForPrompt`, governed by `MAX_PATCH_CHARS`) and their *full*
patch to `patchByPath`/`addPosMapByPath`, which is all that position
resolution ever reads. -/

/-- One entry of `pulls.listFiles`: the per-file patch may be absent (very
large diffs). -/
structure ChangedFile where
  filename : String
  patch : Option String
  status : String
deriving DecidableEq, Repr

/-- JavaScript truthiness of `f.patch` (`!f.patch` skips both an absent and
an empty patch). -/
def patchTruthy : Option String → Bool
  | none => false
  | some p => p != ""

/-- The four `continue` guards of the file loop, as one predicate (the glob
guard through `pathMatchesAnyB`, the completed-run Boolean view of the
matcher). -/
def fileEligible (globs : List String) (f : ChangedFile) : Bool :=
  patchTruthy f.patch && !(f.status == "removed") &&
    !(strStarts f.filename ".github/") && pathMatchesAnyB f.filename globs

/-- The files surviving the loop's guards, in the host's reported order. -/
def eligibleFiles (globs : List String) (files : List ChangedFile) :
    List ChangedFile :=
  files.filter (fileEligible globs)

/-- `trimPatchForPrompt(patch)`: keep only the `@@`/`+`/`-` lines, rejoin
them and cut the result to `MAX_PATCH_CHARS` characters; used only for the
model prompt. -/
def trimPatchForPrompt (maxPatchChars : Nat) (patch : String) : String :=
  if patch = "" then ""
  else
    String.mk ((joinNl ((splitNl patch).filter fun l =>
      strStarts l "@@" || strStarts l "+" || strStarts l "-")).data.take
        maxPatchChars)

/-- The `promptDiffs` array: filename with trimmed patch. -/
def promptDiffsOf (maxPatchChars : Nat) (globs : List String)
    (files : List ChangedFile) : List (String × String) :=
  (eligibleFiles globs files).map fun f =>
    (f.filename, trimPatchForPrompt maxPatchChars (f.patch.getD ""))

/-- The `patchByPath` map: filename with the full, untrimmed patch. -/
def patchByPath (globs : List String) (files : List ChangedFile) :
    List (String × String) :=
  (eligibleFiles globs files).map fun f => (f.filename, f.patch.getD "")

/-- The `addPosMapByPath` map: filename with the precomputed position
table of the full patch. -/
def addPosMapByPath (globs : List String) (files : List ChangedFile) :
    List (String × List Nat) :=
  (eligibleFiles globs files).map fun f =>
    (f.filename, buildAddedLinePositions (f.patch.getD ""))

/-- The three run-scoped tables `main` builds before calling the model. -/
structure RunState where
  promptDiffs : List (String × String)
  patchMap : List (String × String)
  posMap : List (String × List Nat)
deriving DecidableEq, Repr

/-- Lines 232–245 of `main` as a function of the configuration knob
`MAX_PATCH_CHARS`. -/
def prepareRun (maxPatchChars : Nat) (globs : List String)
    (files : List ChangedFile) : RunState :=
  ⟨promptDiffsOf maxPatchChars globs files, patchByPath globs files,
    addPosMapByPath globs files⟩

/-- Position resolution for one proposed comment
(`c.line ? positionFromNthAdded(patchByPath.get(c.path), c.line) : undefined`;
an absent map entry behaves as an absent patch). -/
def resolveCommentPos (st : RunState) (c : ProposedComment) : Option Nat :=
  if lineTruthy c.line then
    positionFromNthAdded ((st.patchMap.lookup c.path).getD "") c.line
  else none

lemma positionFromNthAdded_empty (k : Option Int) :
    positionFromNthAdded "" k = none := by
  cases k with
  | none => rfl
  | some k => simp [positionFromNthAdded]

lemma lookup_map_filename_eq_none {β : Type} (p : String) (g : ChangedFile → β) :
    ∀ l : List ChangedFile, (∀ f ∈ l, f.filename ≠ p) →
      (l.map fun f => (f.filename, g f)).lookup p = none := by
  intro l
  induction l with
  | nil => intro _; rfl
  | cons f l ih =>
    intro h
    have hf : (p == f.filename) = false :=
      beq_eq_false_iff_ne.mpr (Ne.symm (h f (List.mem_cons_self f l)))
    simp only [List.map_cons, List.lookup, hf]
    exact ih fun x hx => h x (List.mem_cons_of_mem f hx)

/-- **C9.** The prompt-side trimming affects only the text sent to the
completion service: the `patchByPath` and `addPosMapByPath` tables built by a
run, position resolution for every proposed comment, and the whole dispatch
build are identical for any two values of `review.maxPatchChars`; the knob
only cuts the trimmed prompt text itself to at most that many characters. -/
theorem trimPatchForPrompt_frame (mpc1 mpc2 : Nat) (globs : List String)
    (files : List ChangedFile) (comments : List ProposedComment) :
    (∀ c : ProposedComment,
        resolveCommentPos (prepareRun mpc1 globs files) c =
          resolveCommentPos (prepareRun mpc2 globs files) c) ∧
      buildDispatch (prepareRun mpc1 globs files).patchMap comments =
        buildDispatch (prepareRun mpc2 globs files).patchMap comments ∧
      (prepareRun mpc1 globs files).patchMap =
        (prepareRun mpc2 globs files).patchMap ∧
      (prepareRun mpc1 globs files).posMap =
        (prepareRun mpc2 globs files).posMap ∧
      (∀ p : String, (trimPatchForPrompt mpc1 p).data.length ≤ mpc1) := by
  refine ⟨fun c => rfl, rfl, rfl, rfl, ?_⟩
  intro p
  by_cases h : p = ""
  · simp [trimPatchForPrompt, h]
  · simp only [trimPatchForPrompt, if_neg h]
    exact le_trans (le_of_eq (List.length_take _ _)) (min_le_left _ _)

/-- **C10.** A changed file whose patch is absent, whose status is
`"removed"`, or whose path lies under `.github/` contributes nothing to the
run, whatever the configured globs: it has no prompt diff, no entry in the
patch or position tables, and a proposed comment naming its path never
becomes an inline comment (it can only reach the fallback). -/
theorem excludedFile_no_contribution (mpc : Nat) (globs : List String)
    (files : List ChangedFile) (p : String)
    (h : ∀ f ∈ files, f.filename = p →
      f.patch = none ∨ f.status = "removed" ∨
        strStarts f.filename ".github/" = true) :
    (promptDiffsOf mpc globs files).lookup p = none ∧
      (patchByPath globs files).lookup p = none ∧
      (addPosMapByPath globs files).lookup p = none ∧
      (∀ c : ProposedComment, c.path = p →
        (buildDispatch (patchByPath globs files) [c]).1 = []) := by
  have hne : ∀ f ∈ eligibleFiles globs files, f.filename ≠ p := by
    intro f hf hfp
    have hmem := List.mem_filter.mp hf
    have helig := hmem.2
    simp only [fileEligible, Bool.and_eq_true, Bool.not_eq_true',
      beq_eq_false_iff_ne] at helig
    rcases h f hmem.1 hfp with hp | hs | hg
    · rw [hp] at helig
      simp [patchTruthy] at helig
    · exact helig.1.1.2 hs
    · rw [hg] at helig
      simp at helig
  have hlook : (patchByPath globs files).lookup p = none :=
    lookup_map_filename_eq_none p _ _ hne
  refine ⟨lookup_map_filename_eq_none p _ _ hne, hlook,
    lookup_map_filename_eq_none p _ _ hne, ?_⟩
  intro c hc
  have hcl : (patchByPath globs files).lookup c.path = none := hc ▸ hlook
  simp only [buildDispatch, List.foldl_cons, List.foldl_nil, dispatchStep,
    hcl, Option.getD_none, positionFromNthAdded_empty]
  simp

/-- Closed witness for C10: a workflow file (under `.github/`), a removed
file and a patchless file contribute no tables and no inline comment even
with the permissive empty glob set. -/
theorem excludedFile_no_contribution_witness :
    (patchByPath []
        [⟨".github/workflows/ci.yml", some "@@\n+x", "modified"⟩]).lookup
        ".github/workflows/ci.yml" = none ∧
      (addPosMapByPath ["src/**"]
        [⟨"src/gone.js", some "@@\n+x", "removed"⟩]).lookup "src/gone.js" =
        none ∧
      (buildDispatch
          (patchByPath ["src/**"] [⟨"src/huge.js", none, "modified"⟩])
          [⟨"src/huge.js", some 1, none, "comment", none⟩]).1 = [] := by
  refine ⟨?_, ?_, ?_⟩
  · exact (excludedFile_no_contribution 0 []
      [⟨".github/workflows/ci.yml", some "@@\n+x", "modified"⟩]
      ".github/workflows/ci.yml"
      (by intro f hf hfp; simp at hf; rw [hf]; right; right; decide)).2.1
  · exact (excludedFile_no_contribution 0 ["src/**"]
      [⟨"src/gone.js", some "@@\n+x", "removed"⟩] "src/gone.js"
      (by intro f hf hfp; simp at hf; rw [hf]; right; left; rfl)).2.2.1
  · exact (excludedFile_no_contribution 0 ["src/**"]
      [⟨"src/huge.js", none, "modified"⟩] "src/huge.js"
      (by intro f hf hfp; simp at hf; rw [hf]; left; rfl)).2.2.2
      ⟨"src/huge.js", some 1, none, "comment", none⟩ rfl

end Reviewer
